import Mathlib

/-! Greyhound session handler: `PdalSession` reads and `BufferTransmitter`.

A shallow embedding of `src/session-handler/addon/pdal-session.cpp`.

* Memory: the caller's output buffer is a map from byte offsets (relative to
  `*buffer`) to bytes; `memcpy` overwrites a run of offsets.
* External collaborators (the PDAL point buffer, the quad index, the TCP
  connect call, the name resolver) are parameters of the model.  Each of them
  may throw: a field read, the index build, the name resolution.
* `std::size_t` is 64 bits wide and `boost::uint32_t` 32 bits wide; the
  places where the source does unsigned arithmetic carry an explicit `%`.
* A C++ `throw` is the `Result.throw` outcome; a loop that has not finished
  within the given number of iterations is `Result.outOfFuel`.
-/

namespace Greyhound

/-! ## Data model -/

/-- The C++ value types `getFieldAs<T>` is instantiated at in `readDim`. -/
inductive CType where
  | float | double | uint8 | uint16 | uint32 | uint64
  deriving DecidableEq, Repr

/-- One entry of a `Schema` (`DimensionRequest` of `pdal-session.hpp`): the
PDAL dimension id, the requested kind as a string and the byte width. -/
structure DimensionRequest where
  id : Nat
  type : String
  size : Nat
  deriving DecidableEq, Repr

abbrev Schema := List DimensionRequest

/-- The PDAL point buffer as far as the session uses it: `size()` and
`getFieldAs<T>(dim, index)`.  A call of `getFieldAs` either throws (`none`), as
PDAL does for a value it cannot convert to `T`, or returns a value, given by
its object representation read as a number (the bit pattern for `float` and
`double`). -/
structure PointBuffer where
  size : Nat
  getFieldAs : CType → Nat → Nat → Option Nat

/-- The part of the machine state a read can change: the bytes at each offset
from `*buffer`, and the record of the point indices of the `getFieldAs` calls
that returned (oldest first). -/
structure Machine where
  mem : Nat → Nat
  log : List Nat

/-- Outcome of a call: a returned value, a thrown `std::runtime_error` with its
message, or a loop still running when the iteration budget ran out. -/
inductive Result (α : Type) where
  | ok : α → Result α
  | throw : String → Result α
  | outOfFuel : Result α
  deriving DecidableEq, Repr

/-- The `w` bytes of the object representation of a `w`-byte value whose bit
pattern is `v`, lowest address first (little-endian host). -/
def objectBytes (w v : Nat) : List Nat :=
  (List.range w).map (fun t => (v / 256 ^ t) % 256)

/-- The effect of `std::memcpy(dst, src, src.length)` on the output buffer. -/
def memcpy (mem : Nat → Nat) (dst : Nat) (src : List Nat) : Nat → Nat :=
  fun a => if dst ≤ a ∧ a < dst + src.length then src.getD (a - dst) 0 else mem a

/-! ## The dimension serializer -/

/-- Source `PdalSession::readDim`: on success the new machine state and the number of
bytes written (`dim.size`).  The two `throw`s happen before anything is read or
written, and an exception of `getFieldAs` leaves before the `memcpy`. -/
def readDim (pb : PointBuffer) (m : Machine) (buffer : Nat) (dim : DimensionRequest)
    (index : Nat) : Except String (Machine × Nat) :=
  let put (t : CType) : Except String (Machine × Nat) :=
    match pb.getFieldAs t dim.id index with
    | none => .error "getFieldAs failed"
    | some val =>
      .ok ({ mem := memcpy m.mem buffer (objectBytes dim.size val), log := m.log ++ [index] },
           dim.size)
  if dim.type == "floating" then
    if dim.size == 4 then put .float
    else if dim.size == 8 then put .double
    else .error "Invalid floating size requested"
  else
    if dim.size == 1 then put .uint8
    else if dim.size == 2 then put .uint16
    else if dim.size == 4 then put .uint32
    else if dim.size == 8 then put .uint64
    else .error "Invalid integer size requested"

/-- The inner loop `for (const auto& dim : schema) pos += readDim(pos, dim, i)`:
the state reached and either the advanced cursor or the message thrown. -/
def readSchema (pb : PointBuffer) : Machine → Nat → Schema → Nat → Machine × Except String Nat
  | m, pos, [], _ => (m, .ok pos)
  | m, pos, dim :: rest, i =>
    match readDim pb m pos dim i with
    | .error e => (m, .error e)
    | .ok (m1, n) => readSchema pb m1 (pos + n) rest i

/-- The outer loop of `readIndexList`: `for (std::size_t i : indexList)`. -/
def readPoints (pb : PointBuffer) (schema : Schema) :
    Machine → Nat → List Nat → Machine × Except String Nat
  | m, pos, [] => (m, .ok pos)
  | m, pos, i :: rest =>
    match readSchema pb m pos schema i with
    | (m1, .error e) => (m1, .error e)
    | (m1, .ok pos1) => readPoints pb schema m1 pos1 rest

/-- Source `PdalSession::readIndexList`: the cursor starts at `*buffer` (offset 0);
anything thrown inside is replaced by one message; on success the number of
indices is returned. -/
def readIndexList (pb : PointBuffer) (schema : Schema) (m : Machine) (indexList : List Nat) :
    Machine × Result Nat :=
  let pointsToRead := indexList.length
  match readPoints pb schema m 0 indexList with
  | (m1, .error _) => (m1, .throw "Failed to read points from PDAL")
  | (m1, .ok _) => (m1, .ok pointsToRead)

/-! ## Sequential read -/

/-- The loop `for (boost::uint32_t i(start); i < start + pointsToRead; ++i)` of
the sequential `read`: `i` is a 32-bit counter, `bound` the `size_t` value
`start + pointsToRead` it is compared with after promotion.  Each unit of fuel
pays for one evaluation of the loop condition. -/
def readLoop (pb : PointBuffer) (schema : Schema) (bound : Nat) :
    Nat → Machine → Nat → Nat → Machine × Result Nat
  | 0, m, _, _ => (m, .outOfFuel)
  | fuel + 1, m, pos, i =>
    if i < bound then
      match readSchema pb m pos schema i with
      | (m1, .error e) => (m1, .throw e)
      | (m1, .ok pos1) => readLoop pb schema bound fuel m1 pos1 ((i + 1) % 2 ^ 32)
    else (m, .ok pos)

/-- The session object: the point buffer and the three lazily built indexes
(`none` is the null pointer; the flag says whether `build` has completed). -/
structure PdalSession where
  pointBuffer : PointBuffer
  quadIndex : Option Bool
  kdIndex2d : Option Bool
  kdIndex3d : Option Bool

/-- Source `PdalSession::getNumPoints`. -/
def PdalSession.getNumPoints (s : PdalSession) : Nat := s.pointBuffer.size

/-- Source `PdalSession::read(buffer, schema, start, count)`, the sequential read.
Returns the session, the machine state and the outcome. -/
def PdalSession.read (s : PdalSession) (fuel : Nat) (m : Machine) (schema : Schema)
    (start count : Nat) : PdalSession × Machine × Result Nat :=
  if start ≥ s.getNumPoints then
    (s, m, .throw "Invalid starting offset in 'read'")
  else
    let pointsToRead :=
      if count > 0 then min count ((s.getNumPoints + 2 ^ 64 - start) % 2 ^ 64)
      else (s.getNumPoints + 2 ^ 64 - start) % 2 ^ 64
    match readLoop s.pointBuffer schema ((start + pointsToRead) % 2 ^ 64) fuel m 0
        (start % 2 ^ 32) with
    | (m1, .throw _) => (s, m1, .throw "Failed to read points from PDAL")
    | (m1, .outOfFuel) => (s, m1, .outOfFuel)
    | (m1, .ok _) => (s, m1, .ok pointsToRead)

/-! ## Specification-side vocabulary -/

/-- A schema entry `readDim` accepts: floating of width 4 or 8, anything else
(integer) of width 1, 2, 4 or 8. -/
def supported (dim : DimensionRequest) : Bool :=
  if dim.type == "floating" then dim.size == 4 || dim.size == 8
  else dim.size == 1 || dim.size == 2 || dim.size == 4 || dim.size == 8

/-- The C++ type `readDim` reads a supported entry as. -/
def ctypeOf (dim : DimensionRequest) : CType :=
  if dim.type == "floating" then (if dim.size == 4 then .float else .double)
  else if dim.size == 1 then .uint8
  else if dim.size == 2 then .uint16
  else if dim.size == 4 then .uint32
  else .uint64

/-- Whether every field read of point `index` under `schema` returns a value. -/
def readable (pb : PointBuffer) (schema : Schema) (index : Nat) : Bool :=
  schema.all (fun dim => (pb.getFieldAs (ctypeOf dim) dim.id index).isSome)

/-- The bytes of one field of one point (of the value 0 where the read throws). -/
def fieldBytes (pb : PointBuffer) (dim : DimensionRequest) (index : Nat) : List Nat :=
  objectBytes dim.size ((pb.getFieldAs (ctypeOf dim) dim.id index).getD 0)

/-- Sum of the byte widths of a schema. -/
def schemaWidth : Schema → Nat
  | [] => 0
  | dim :: rest => dim.size + schemaWidth rest

/-- The packed bytes of one point: its fields in schema order. -/
def pointBytes (pb : PointBuffer) : Schema → Nat → List Nat
  | [], _ => []
  | dim :: rest, i => fieldBytes pb dim i ++ pointBytes pb rest i

/-- The packed bytes of a list of points, in list order. -/
def packedBytes (pb : PointBuffer) (schema : Schema) : List Nat → List Nat
  | [] => []
  | i :: rest => pointBytes pb schema i ++ packedBytes pb schema rest

/-! ## Range read -/

/-- The external quad index during one call: whether `build()` completes, and
what `getPoints` answers (it is told whether the index was built).  `D` stands
for `double`; the coordinates are only passed through. -/
structure QuadIndexEnv (D : Type) where
  build : Bool
  getPoints : Bool → D → D → D → D → Nat → Nat → List Nat

/-- Source `PdalSession::read(buffer, schema, xMin, yMin, xMax, yMax, depthBegin,
depthEnd)`, the range read.  `m_quadIndex.reset(new ...)` comes before the
guarded `build()`, and `m_quadIndex.reset(0)` after `readIndexList` has
returned.  The bounds printed to `std::cout` are left out. -/
def PdalSession.readRange {D : Type} (s : PdalSession) (env : QuadIndexEnv D) (m : Machine)
    (schema : Schema) (xMin yMin xMax yMax : D) (depthBegin depthEnd : Nat) :
    PdalSession × Machine × Result Nat :=
  let query (s1 : PdalSession) (built : Bool) : PdalSession × Machine × Result Nat :=
    let results := env.getPoints built xMin yMin xMax yMax depthBegin depthEnd
    match readIndexList s1.pointBuffer schema m results with
    | (m1, .ok pointsRead) => ({ s1 with quadIndex := none }, m1, .ok pointsRead)
    | (m1, r) => (s1, m1, r)
  match s.quadIndex with
  | some built => query s built
  | none =>
    let s1 := { s with quadIndex := some false }
    if env.build then query { s1 with quadIndex := some true } true
    else (s1, m, .throw "Error creating quadtree index")

/-! ## The streaming transmitter -/

/-- A transmitter that has connected: `m_size`.  Byte positions are offsets
from `m_data`. -/
structure BufferTransmitter where
  size : Nat
  deriving DecidableEq, Repr

/-- The `boost::asio::buffer(ptr, n)` handed to `boost::asio::write`: where it
starts (offset from `m_data`) and how many bytes it spans. -/
structure ConstBuffer where
  data : Nat
  size : Nat
  deriving DecidableEq, Repr

/-- Source `BufferTransmitter::transmit`: the byte range given to the connection.
`m_size - offset` is a `size_t` subtraction. -/
def BufferTransmitter.transmit (t : BufferTransmitter) (offset bytes : Nat) : ConstBuffer :=
  { data := offset
    size :=
      if bytes ≠ 0 then min bytes ((t.size + 2 ^ 64 - offset) % 2 ^ 64)
      else (t.size + 2 ^ 64 - offset) % 2 ^ 64 }

/-- Bookkeeping of the connect loop: the counter `retryCount`, the number of
`asio::connect` calls made so far and the total time slept. -/
structure ConnectState where
  retryCount : Nat
  attempts : Nat
  sleptMs : Nat
  deriving DecidableEq, Repr

/-- The loop
`while ((connectIter = asio::connect(..)) == end && retryCount++ < 500) sleep_for(100ms)`.
`connect k` tells whether the `k`-th call of `asio::connect` (from 0) succeeds.
The value returned is `connectIter != end` at loop exit. -/
def connectLoop (connect : Nat → Bool) : Nat → ConnectState → ConnectState × Result Bool
  | 0, s => (s, .outOfFuel)
  | fuel + 1, s =>
    let connected := connect s.attempts
    let s1 := { s with attempts := s.attempts + 1 }
    if connected then (s1, .ok true)
    else
      let s2 := { s1 with retryCount := s1.retryCount + 1 }
      if s.retryCount < 500 then
        connectLoop connect fuel { s2 with sleptMs := s2.sleptMs + 100 }
      else (s2, .ok false)

/-- The constructor `BufferTransmitter::BufferTransmitter(host, port, data, size)`.
`resolve` is the outcome of `resolver.resolve(q)`, the overload that throws (its
message in `.error`) when the name does not resolve; the connect loop comes
after it. -/
def BufferTransmitter.new (resolve : Except String Unit) (connect : Nat → Bool) (fuel : Nat)
    (host : String) (port : Int) (size : Nat) : ConnectState × Result BufferTransmitter :=
  match resolve with
  | .error e => ({ retryCount := 0, attempts := 0, sleptMs := 0 }, .throw e)
  | .ok _ =>
    match connectLoop connect fuel { retryCount := 0, attempts := 0, sleptMs := 0 } with
    | (s, .ok true) => (s, .ok { size := size })
    | (s, .ok false) => (s, .throw ("Could not connect to " ++ host ++ ":" ++ toString port))
    | (s, .throw e) => (s, .throw e)
    | (s, .outOfFuel) => (s, .outOfFuel)

/-- The record of reads left by serializing the points of `l` with a schema of
`n` entries: each index once per entry, in list order. -/
def visits (n : Nat) : List Nat → List Nat
  | [] => []
  | i :: rest => List.replicate n i ++ visits n rest

/-- Outcome of a loop body sequence seen as the outcome of a call. -/
def liftResult : Except String Nat → Result Nat
  | .ok v => .ok v
  | .error e => .throw e

/-- The number of points a sequential read is to return: `min(count, n - start)`
when `count > 0`, and `n - start` when `count = 0`. -/
def pointsToRead (n start count : Nat) : Nat :=
  if count > 0 then min count (n - start) else n - start

/-- What the sequential `read` makes of the outcome of its loop: any exception
becomes one message, a normal exit returns `k`. -/
def seqOutcome (k : Nat) : Result Nat → Result Nat
  | .throw _ => .throw "Failed to read points from PDAL"
  | .outOfFuel => .outOfFuel
  | .ok _ => .ok k

/-! ## Sample data -/

/-- A buffer of 1000 points whose dimension `d` of point `i` holds `1000 * d + i`. -/
def pbDemo : PointBuffer := { size := 1000, getFieldAs := fun _ d i => some (1000 * d + i) }

/-- The same buffer, except that every field read of point 3 throws. -/
def pbPartial : PointBuffer :=
  { size := 1000, getFieldAs := fun _ d i => if i = 3 then none else some (1000 * d + i) }

/-- A buffer of 2^32 points; every field of point `i` holds `i`. -/
def pbHuge : PointBuffer := { size := 2 ^ 32, getFieldAs := fun _ _ i => some i }

/-- A buffer of 2^32 + 1 points; every field of point `i` holds `i`. -/
def pbHuge1 : PointBuffer := { size := 2 ^ 32 + 1, getFieldAs := fun _ _ i => some i }

/-- A supported two-entry schema: an 8-byte floating field and a 2-byte integer. -/
def schemaDemo : Schema := [⟨1, "floating", 8⟩, ⟨2, "unsigned", 2⟩]

/-- A schema whose second entry has the unsupported integer width 3. -/
def schemaBad : Schema := [⟨1, "unsigned", 1⟩, ⟨2, "unsigned", 3⟩]

/-- A quad index whose `build()` throws. -/
def envBuildFails : QuadIndexEnv Int :=
  { build := false, getPoints := fun built _ _ _ _ _ _ => if built then [0, 1] else [] }

/-- A quad index whose `build()` completes; once built it answers `[0, 1]`. -/
def envBuildOk : QuadIndexEnv Int :=
  { build := true, getPoints := fun built _ _ _ _ _ _ => if built then [0, 1] else [] }

/-- An output buffer of bytes 255 and an empty record of reads. -/
def mFF : Machine := { mem := fun _ => 255, log := [] }

/-- An output buffer of zero bytes and an empty record of reads. -/
def m0 : Machine := { mem := fun _ => 0, log := [] }

/-- A fresh session over `pb`: no index built. -/
def sessionOf (pb : PointBuffer) : PdalSession :=
  { pointBuffer := pb, quadIndex := none, kdIndex2d := none, kdIndex3d := none }

/-! ## Lemmas on memory and on the serializer -/

theorem objectBytes_length (w v : Nat) : (objectBytes w v).length = w := by
  simp [objectBytes]

theorem fieldBytes_length (pb : PointBuffer) (dim : DimensionRequest) (i : Nat) :
    (fieldBytes pb dim i).length = dim.size := by
  simp [fieldBytes, objectBytes_length]

theorem pointBytes_length (pb : PointBuffer) (schema : Schema) (i : Nat) :
    (pointBytes pb schema i).length = schemaWidth schema := by
  induction schema with
  | nil => rfl
  | cons dim rest ih => simp [pointBytes, schemaWidth, fieldBytes_length, ih]

theorem packedBytes_length (pb : PointBuffer) (schema : Schema) (l : List Nat) :
    (packedBytes pb schema l).length = l.length * schemaWidth schema := by
  induction l with
  | nil => simp [packedBytes]
  | cons i rest ih => simp [packedBytes, pointBytes_length, ih]; ring

theorem memcpy_nil (mem : Nat → Nat) (p : Nat) : memcpy mem p [] = mem := by
  funext a
  simp [memcpy]

theorem memcpy_append (mem : Nat → Nat) (p : Nat) (xs ys : List Nat) :
    memcpy (memcpy mem p xs) (p + xs.length) ys = memcpy mem p (xs ++ ys) := by
  funext a
  simp only [memcpy, List.length_append]
  by_cases h1 : p + xs.length ≤ a ∧ a < p + xs.length + ys.length
  · have h2 : p ≤ a ∧ a < p + (xs.length + ys.length) := by omega
    have h3 : xs.length ≤ a - p := by omega
    rw [if_pos h1, if_pos h2, List.getD_append_right _ _ _ _ h3]
    congr 1
    omega
  · rw [if_neg h1]
    by_cases h2 : p ≤ a ∧ a < p + xs.length
    · have h3 : p ≤ a ∧ a < p + (xs.length + ys.length) := by omega
      have h4 : a - p < xs.length := by omega
      rw [if_pos h2, if_pos h3, List.getD_append _ _ _ _ h4]
    · have h3 : ¬ (p ≤ a ∧ a < p + (xs.length + ys.length)) := by omega
      rw [if_neg h2, if_neg h3]

theorem memcpy_outside (mem : Nat → Nat) (p : Nat) (xs : List Nat) (a : Nat)
    (h : a < p ∨ p + xs.length ≤ a) : memcpy mem p xs a = mem a := by
  have : ¬ (p ≤ a ∧ a < p + xs.length) := by omega
  simp [memcpy, this]

theorem memcpy_inside (mem : Nat → Nat) (p : Nat) (xs : List Nat) (t : Nat)
    (h : t < xs.length) : memcpy mem p xs (p + t) = xs.getD t 0 := by
  have : p ≤ p + t ∧ p + t < p + xs.length := by omega
  simp [memcpy, this]

theorem readable_cons (pb : PointBuffer) (dim : DimensionRequest) (rest : Schema) (i : Nat) :
    readable pb (dim :: rest) i = true ↔
      (pb.getFieldAs (ctypeOf dim) dim.id i).isSome = true ∧ readable pb rest i = true := by
  simp [readable]

theorem readDim_supported (pb : PointBuffer) (m : Machine) (pos : Nat) (dim : DimensionRequest)
    (i : Nat) (h : supported dim = true)
    (hr : (pb.getFieldAs (ctypeOf dim) dim.id i).isSome = true) :
    readDim pb m pos dim i =
      .ok ({ mem := memcpy m.mem pos (fieldBytes pb dim i), log := m.log ++ [i] }, dim.size) := by
  obtain ⟨v, hv⟩ := Option.isSome_iff_exists.mp hr
  unfold fieldBytes
  rw [hv]
  unfold supported at h
  unfold ctypeOf at hv
  unfold readDim
  cases hf : (dim.type == "floating")
  · rw [hf] at h hv
    simp only [Bool.false_eq_true, if_false, Bool.or_eq_true, beq_iff_eq] at h hv
    rcases h with ((h | h) | h) | h <;> simp [h] at hv <;> simp [h, hv]
  · rw [hf] at h hv
    simp only [if_true, Bool.or_eq_true, beq_iff_eq] at h hv
    rcases h with h | h <;> simp [h] at hv <;> simp [h, hv]

theorem readDim_unsupported (pb : PointBuffer) (m : Machine) (pos : Nat) (dim : DimensionRequest)
    (i : Nat) (h : supported dim = false) :
    ∃ e, readDim pb m pos dim i = .error e := by
  unfold supported at h
  unfold readDim
  cases hf : (dim.type == "floating")
  · rw [hf] at h
    simp only [Bool.false_eq_true, if_false, Bool.or_eq_false_iff, beq_eq_false_iff_ne] at h
    simp [h.1.1.1, h.1.1.2, h.1.2, h.2]
  · rw [hf] at h
    simp only [if_true, Bool.or_eq_false_iff, beq_eq_false_iff_ne] at h
    simp [h.1, h.2]

theorem readDim_returns_size (pb : PointBuffer) (m m1 : Machine) (pos : Nat)
    (dim : DimensionRequest) (i n : Nat) (h : readDim pb m pos dim i = .ok (m1, n)) :
    n = dim.size := by
  unfold readDim at h
  simp only at h
  split at h
  · split at h
    · split at h <;> simp at h; exact h.2.symm
    · split at h
      · split at h <;> simp at h; exact h.2.symm
      · simp at h
  · split at h
    · split at h <;> simp at h; exact h.2.symm
    · split at h
      · split at h <;> simp at h; exact h.2.symm
      · split at h
        · split at h <;> simp at h; exact h.2.symm
        · split at h
          · split at h <;> simp at h; exact h.2.symm
          · simp at h

theorem readSchema_ok (pb : PointBuffer) (schema : Schema) (i : Nat)
    (h : ∀ d ∈ schema, supported d = true) (hr : readable pb schema i = true)
    (m : Machine) (pos : Nat) :
    readSchema pb m pos schema i =
      ({ mem := memcpy m.mem pos (pointBytes pb schema i),
         log := m.log ++ List.replicate schema.length i }, .ok (pos + schemaWidth schema)) := by
  induction schema generalizing m pos with
  | nil => simp [readSchema, pointBytes, schemaWidth, memcpy_nil]
  | cons dim rest ih =>
    have hd : supported dim = true := h dim (List.mem_cons_self _ _)
    have hrest : ∀ d ∈ rest, supported d = true := fun d hm => h d (List.mem_cons_of_mem _ hm)
    obtain ⟨hr1, hr2⟩ := (readable_cons pb dim rest i).mp hr
    rw [readSchema, readDim_supported pb m pos dim i hd hr1]
    simp only
    rw [ih hrest hr2]
    have hl : pos + dim.size = pos + (fieldBytes pb dim i).length := by
      rw [fieldBytes_length]
    simp only [pointBytes, schemaWidth, List.length_cons, List.replicate_succ]
    rw [hl, memcpy_append, fieldBytes_length]
    simp [Nat.add_assoc]

theorem readSchema_unsupported (pb : PointBuffer) (pre post : Schema) (bad : DimensionRequest)
    (i : Nat) (hpre : ∀ d ∈ pre, supported d = true) (hbad : supported bad = false)
    (hr : readable pb pre i = true) (m : Machine) (pos : Nat) :
    ∃ e, readSchema pb m pos (pre ++ bad :: post) i =
      ({ mem := memcpy m.mem pos (pointBytes pb pre i),
         log := m.log ++ List.replicate pre.length i }, .error e) := by
  induction pre generalizing m pos with
  | nil =>
    obtain ⟨e, he⟩ := readDim_unsupported pb m pos bad i hbad
    exact ⟨e, by simp [readSchema, he, pointBytes, memcpy_nil]⟩
  | cons dim rest ih =>
    have hd : supported dim = true := hpre dim (List.mem_cons_self _ _)
    have hrest : ∀ d ∈ rest, supported d = true := fun d hm => hpre d (List.mem_cons_of_mem _ hm)
    obtain ⟨hr1, hr2⟩ := (readable_cons pb dim rest i).mp hr
    obtain ⟨e, he⟩ := ih hrest hr2
      { mem := memcpy m.mem pos (fieldBytes pb dim i), log := m.log ++ [i] } (pos + dim.size)
    refine ⟨e, ?_⟩
    rw [List.cons_append, readSchema, readDim_supported pb m pos dim i hd hr1]
    simp only
    rw [he]
    have hl : pos + dim.size = pos + (fieldBytes pb dim i).length := by
      rw [fieldBytes_length]
    simp only [pointBytes, List.length_cons, List.replicate_succ]
    rw [hl, memcpy_append]
    simp

theorem readSchema_fails (pb : PointBuffer) (schema : Schema) (i : Nat)
    (h : ∃ d ∈ schema, supported d = false) (m : Machine) (pos : Nat) :
    ∃ m1 e, readSchema pb m pos schema i = (m1, .error e) := by
  induction schema generalizing m pos with
  | nil => simp at h
  | cons dim rest ih =>
    rw [readSchema]
    rcases hrd : readDim pb m pos dim i with e | ⟨m1, n⟩
    · exact ⟨m, e, rfl⟩
    · simp only
      apply ih
      obtain ⟨d, hm, hs⟩ := h
      rcases List.mem_cons.mp hm with rfl | hm
      · obtain ⟨e, he⟩ := readDim_unsupported pb m pos d i hs
        rw [he] at hrd
        exact absurd hrd (by simp)
      · exact ⟨d, hm, hs⟩

theorem exists_first_unsupported (schema : Schema)
    (h : ∃ d ∈ schema, supported d = false) :
    ∃ pre bad post, schema = pre ++ bad :: post ∧ (∀ d ∈ pre, supported d = true) ∧
      supported bad = false := by
  induction schema with
  | nil => simp at h
  | cons dim rest ih =>
    cases hd : supported dim with
    | false => exact ⟨[], dim, rest, rfl, by simp, hd⟩
    | true =>
      have hr : ∃ d ∈ rest, supported d = false := by
        obtain ⟨d, hm, hs⟩ := h
        rcases List.mem_cons.mp hm with rfl | hm
        · rw [hd] at hs; exact absurd hs (by decide)
        · exact ⟨d, hm, hs⟩
      obtain ⟨pre, bad, post, he, hp, hb⟩ := ih hr
      refine ⟨dim :: pre, bad, post, by rw [he]; rfl, ?_, hb⟩
      intro d hm
      rcases List.mem_cons.mp hm with rfl | hm
      · exact hd
      · exact hp d hm

theorem readPoints_ok (pb : PointBuffer) (schema : Schema)
    (h : ∀ d ∈ schema, supported d = true) (l : List Nat)
    (hr : ∀ p ∈ l, readable pb schema p = true) (m : Machine) (pos : Nat) :
    readPoints pb schema m pos l =
      ({ mem := memcpy m.mem pos (packedBytes pb schema l),
         log := m.log ++ visits schema.length l }, .ok (pos + l.length * schemaWidth schema)) := by
  induction l generalizing m pos with
  | nil => simp [readPoints, packedBytes, visits, memcpy_nil]
  | cons i rest ih =>
    rw [readPoints, readSchema_ok pb schema i h (hr i (List.mem_cons_self _ _))]
    simp only
    rw [ih (fun p hp => hr p (List.mem_cons_of_mem _ hp))]
    have hl : pos + schemaWidth schema = pos + (pointBytes pb schema i).length := by
      rw [pointBytes_length]
    simp only [packedBytes, visits, List.length_cons]
    rw [hl, memcpy_append, pointBytes_length]
    simp [Nat.add_assoc, Nat.add_mul, Nat.add_comm]

theorem readPoints_unsupported (pb : PointBuffer) (pre post : Schema) (bad : DimensionRequest)
    (hpre : ∀ d ∈ pre, supported d = true) (hbad : supported bad = false)
    (i : Nat) (rest : List Nat) (hr : readable pb pre i = true) (m : Machine) (pos : Nat) :
    ∃ e, readPoints pb (pre ++ bad :: post) m pos (i :: rest) =
      ({ mem := memcpy m.mem pos (pointBytes pb pre i),
         log := m.log ++ List.replicate pre.length i }, .error e) := by
  obtain ⟨e, he⟩ := readSchema_unsupported pb pre post bad i hpre hbad hr m pos
  exact ⟨e, by rw [readPoints, he]⟩

theorem readPoints_fails (pb : PointBuffer) (schema : Schema)
    (h : ∃ d ∈ schema, supported d = false) (i : Nat) (rest : List Nat) (m : Machine)
    (pos : Nat) : ∃ m1 e, readPoints pb schema m pos (i :: rest) = (m1, .error e) := by
  obtain ⟨m1, e, he⟩ := readSchema_fails pb schema i h m pos
  exact ⟨m1, e, by rw [readPoints, he]⟩

theorem pointBytes_getD (pb : PointBuffer) (p : Nat) (schema : Schema) (j : Nat)
    (dim : DimensionRequest) (t : Nat) (hj : schema[j]? = some dim) (ht : t < dim.size) :
    schemaWidth (schema.take j) + t < schemaWidth schema ∧
    (pointBytes pb schema p).getD (schemaWidth (schema.take j) + t) 0 =
      (fieldBytes pb dim p).getD t 0 := by
  induction schema generalizing j with
  | nil => simp at hj
  | cons d rest ih =>
    cases j with
    | zero =>
      simp only [List.getElem?_cons_zero, Option.some.injEq] at hj
      subst hj
      have hlen : t < (fieldBytes pb d p).length := by rw [fieldBytes_length]; exact ht
      refine ⟨by simp [schemaWidth]; omega, ?_⟩
      simp only [List.take_zero, schemaWidth, Nat.zero_add, pointBytes]
      exact List.getD_append _ _ _ _ hlen
    | succ j =>
      simp only [List.getElem?_cons_succ] at hj
      obtain ⟨h1, h2⟩ := ih j hj
      refine ⟨by simp only [List.take_succ_cons, schemaWidth]; omega, ?_⟩
      simp only [List.take_succ_cons, schemaWidth, pointBytes]
      have hle : (fieldBytes pb d p).length ≤ d.size + schemaWidth (List.take j rest) + t := by
        rw [fieldBytes_length]; omega
      rw [List.getD_append_right _ _ _ _ hle, fieldBytes_length, ← h2]
      congr 1
      omega

theorem packedBytes_getD (pb : PointBuffer) (schema : Schema) (l : List Nat) (i p r : Nat)
    (hi : l[i]? = some p) (hr : r < schemaWidth schema) :
    (packedBytes pb schema l).getD (i * schemaWidth schema + r) 0 =
      (pointBytes pb schema p).getD r 0 := by
  induction l generalizing i with
  | nil => simp at hi
  | cons q rest ih =>
    cases i with
    | zero =>
      simp only [List.getElem?_cons_zero, Option.some.injEq] at hi
      subst hi
      have hlen : r < (pointBytes pb schema q).length := by rw [pointBytes_length]; exact hr
      simp only [packedBytes, Nat.zero_mul, Nat.zero_add]
      exact List.getD_append _ _ _ _ hlen
    | succ i =>
      simp only [List.getElem?_cons_succ] at hi
      have hle : (pointBytes pb schema q).length ≤ (i + 1) * schemaWidth schema + r := by
        rw [pointBytes_length, Nat.add_mul]; omega
      simp only [packedBytes]
      rw [List.getD_append_right _ _ _ _ hle, pointBytes_length, ← ih i hi]
      congr 1
      rw [Nat.add_mul]
      omega

theorem getElem?_lt_length {α : Type} (l : List α) (i : Nat) (x : α) (h : l[i]? = some x) :
    i < l.length := by
  by_contra hc
  rw [List.getElem?_eq_none (by omega)] at h
  exact absurd h (by simp)

/-! ## Lemmas on the sequential loop -/

theorem readLoop_eq_readPoints (pb : PointBuffer) (schema : Schema) (bound : Nat)
    (hb : bound < 2 ^ 32) (n : Nat) :
    ∀ (fuel i : Nat) (m : Machine) (pos : Nat), i + n = bound → n < fuel →
      readLoop pb schema bound fuel m pos i =
        ((readPoints pb schema m pos (List.range' i n)).1,
         liftResult (readPoints pb schema m pos (List.range' i n)).2) := by
  induction n with
  | zero =>
    intro fuel i m pos hi hf
    obtain ⟨f, rfl⟩ : ∃ f, fuel = f + 1 := ⟨fuel - 1, by omega⟩
    have : ¬ i < bound := by omega
    simp [readLoop, this, readPoints, liftResult]
  | succ n ih =>
    intro fuel i m pos hi hf
    obtain ⟨f, rfl⟩ : ∃ f, fuel = f + 1 := ⟨fuel - 1, by omega⟩
    have hlt : i < bound := by omega
    have hmod : (i + 1) % 2 ^ 32 = i + 1 := Nat.mod_eq_of_lt (by omega)
    rw [readLoop, if_pos hlt, List.range'_succ, readPoints, hmod]
    rcases hrs : readSchema pb m pos schema i with ⟨m1, e | pos1⟩
    · simp [liftResult]
    · simp only
      exact ih f (i + 1) m1 pos1 (by omega) (by omega)

theorem readLoop_spins (pb : PointBuffer) (schema : Schema) (bound : Nat)
    (h : ∀ d ∈ schema, supported d = true)
    (hr : ∀ i, i < bound → readable pb schema i = true) (hb : 2 ^ 32 ≤ bound) (fuel : Nat) :
    ∀ (m : Machine) (pos i : Nat), i < 2 ^ 32 →
      (readLoop pb schema bound fuel m pos i).2 = .outOfFuel := by
  induction fuel with
  | zero => intro m pos i _; rfl
  | succ f ih =>
    intro m pos i hi
    have hlt : i < bound := by omega
    rw [readLoop, if_pos hlt, readSchema_ok pb schema i h (hr i hlt)]
    exact ih _ _ _ (Nat.mod_lt _ (by norm_num))

theorem readLoop_no_throw (pb : PointBuffer) (schema : Schema) (bound : Nat)
    (h : ∀ d ∈ schema, supported d = true)
    (hr : ∀ i, i < bound → readable pb schema i = true) (fuel : Nat) :
    ∀ (m : Machine) (pos i : Nat) (e : String),
      (readLoop pb schema bound fuel m pos i).2 ≠ .throw e := by
  induction fuel with
  | zero => intro m pos i e; simp [readLoop]
  | succ f ih =>
    intro m pos i e
    rw [readLoop]
    by_cases hlt : i < bound
    · rw [if_pos hlt, readSchema_ok pb schema i h (hr i hlt)]
      exact ih _ _ _ e
    · rw [if_neg hlt]
      simp

theorem readLoop_unsupported (pb : PointBuffer) (pre post : Schema) (bad : DimensionRequest)
    (hpre : ∀ d ∈ pre, supported d = true) (hbad : supported bad = false)
    (bound fuel : Nat) (m : Machine) (pos i : Nat) (hi : i < bound)
    (hr : readable pb pre i = true) :
    ∃ e, readLoop pb (pre ++ bad :: post) bound (fuel + 1) m pos i =
      ({ mem := memcpy m.mem pos (pointBytes pb pre i),
         log := m.log ++ List.replicate pre.length i }, .throw e) := by
  obtain ⟨e, he⟩ := readSchema_unsupported pb pre post bad i hpre hbad hr m pos
  exact ⟨e, by rw [readLoop, if_pos hi, he]⟩

theorem readLoop_fails (pb : PointBuffer) (schema : Schema)
    (h : ∃ d ∈ schema, supported d = false) (bound fuel : Nat) (m : Machine) (pos i : Nat)
    (hi : i < bound) :
    ∃ m1 e, readLoop pb schema bound (fuel + 1) m pos i = (m1, .throw e) := by
  obtain ⟨m1, e, he⟩ := readSchema_fails pb schema i h m pos
  exact ⟨m1, e, by rw [readLoop, if_pos hi, he]⟩

theorem size_sub (n start : Nat) (hn : n < 2 ^ 64) (hs : start ≤ n) :
    (n + 2 ^ 64 - start) % 2 ^ 64 = n - start := by
  omega

theorem pointsToRead_pos (n start count : Nat) (hs : start < n) :
    0 < pointsToRead n start count ∧ start + pointsToRead n start count ≤ n := by
  unfold pointsToRead
  split
  · rw [Nat.min_def]; split <;> omega
  · omega

theorem read_unfold (s : PdalSession) (fuel : Nat) (m : Machine) (schema : Schema)
    (start count : Nat) (hN : s.getNumPoints < 2 ^ 64) (hs : start < s.getNumPoints) :
    s.read fuel m schema start count =
      (s, (readLoop s.pointBuffer schema (start + pointsToRead s.getNumPoints start count)
              fuel m 0 (start % 2 ^ 32)).1,
          seqOutcome (pointsToRead s.getNumPoints start count)
            (readLoop s.pointBuffer schema (start + pointsToRead s.getNumPoints start count)
              fuel m 0 (start % 2 ^ 32)).2) := by
  have hk := pointsToRead_pos s.getNumPoints start count hs
  have hsub := size_sub s.getNumPoints start hN (Nat.le_of_lt hs)
  have hmod : (start + pointsToRead s.getNumPoints start count) % 2 ^ 64 =
      start + pointsToRead s.getNumPoints start count := Nat.mod_eq_of_lt (by omega)
  unfold PdalSession.read
  rw [if_neg (by omega)]
  simp only [hsub]
  change (match readLoop s.pointBuffer schema
      ((start + pointsToRead s.getNumPoints start count) % 2 ^ 64) fuel m 0 (start % 2 ^ 32) with
    | (m1, .throw _) => (s, m1, Result.throw "Failed to read points from PDAL")
    | (m1, .outOfFuel) => (s, m1, Result.outOfFuel)
    | (m1, .ok _) => (s, m1, Result.ok (pointsToRead s.getNumPoints start count))) = _
  rw [hmod]
  rcases readLoop s.pointBuffer schema (start + pointsToRead s.getNumPoints start count)
      fuel m 0 (start % 2 ^ 32) with ⟨m1, v | e | _⟩ <;> rfl

theorem read_spins (s : PdalSession) (m : Machine) (schema : Schema) (start count : Nat)
    (hN : s.getNumPoints < 2 ^ 64) (hs : start < s.getNumPoints)
    (h : ∀ d ∈ schema, supported d = true)
    (hr : ∀ i, i < s.getNumPoints → readable s.pointBuffer schema i = true)
    (hb : 2 ^ 32 ≤ start + pointsToRead s.getNumPoints start count) (fuel : Nat) :
    (s.read fuel m schema start count).2.2 = .outOfFuel := by
  have hk := pointsToRead_pos s.getNumPoints start count hs
  rw [read_unfold s fuel m schema start count hN hs]
  simp only
  rw [readLoop_spins s.pointBuffer schema _ h (fun i hi => hr i (by omega)) hb fuel m 0 _
    (Nat.mod_lt _ (by norm_num))]
  rfl

/-- Below 2^32, and when the field reads of the requested points return, the
sequential read is the packed serialization of the points
`start, start+1, ..., start+k-1`, each visited once and in increasing order, and
it returns `k = pointsToRead`. -/
theorem read_sequential_in_order (s : PdalSession) (m : Machine) (schema : Schema)
    (start count fuel : Nat) (hN : s.getNumPoints < 2 ^ 64) (hs : start < s.getNumPoints)
    (h : ∀ d ∈ schema, supported d = true)
    (hr : ∀ i, i < s.getNumPoints → readable s.pointBuffer schema i = true)
    (hb : start + pointsToRead s.getNumPoints start count < 2 ^ 32)
    (hf : pointsToRead s.getNumPoints start count < fuel) :
    s.read fuel m schema start count =
      (s, { mem := memcpy m.mem 0 (packedBytes s.pointBuffer schema
                (List.range' start (pointsToRead s.getNumPoints start count))),
            log := m.log ++ visits schema.length
                (List.range' start (pointsToRead s.getNumPoints start count)) },
          .ok (pointsToRead s.getNumPoints start count)) := by
  have hk := pointsToRead_pos s.getNumPoints start count hs
  have hmod : start % 2 ^ 32 = start := Nat.mod_eq_of_lt (by omega)
  have hmem : ∀ p ∈ List.range' start (pointsToRead s.getNumPoints start count),
      readable s.pointBuffer schema p = true := by
    intro p hp
    have := List.mem_range'_1.mp hp
    exact hr p (by omega)
  rw [read_unfold s fuel m schema start count hN hs, hmod,
    readLoop_eq_readPoints s.pointBuffer schema _ hb _ fuel start m 0 rfl hf,
    readPoints_ok s.pointBuffer schema h _ hmem]
  rfl

/-! ## Claims on the serializer -/

/-- Claim C6, as stated, fails: under the supported sample schema (W = 10) the
field reads of point 3 throw, so `readIndexList` on `[7, 3]` throws instead of
returning 2, and only the 10 bytes of point 7 are written: offset 10 still holds
the old byte. -/
theorem readIndexList_stops_at_failing_field_read :
    (∀ d ∈ schemaDemo, supported d = true) ∧
    (readIndexList pbPartial schemaDemo mFF [7, 3]).2 =
      .throw "Failed to read points from PDAL" ∧
    (readIndexList pbPartial schemaDemo mFF [7, 3]).1.mem 9 = 7 ∧
    (readIndexList pbPartial schemaDemo mFF [7, 3]).1.mem 10 = mFF.mem 10 := by
  decide

/-- Claim C6, amended: for a schema whose entries are all supported and an index
list of `k` points whose field reads all return, `readIndexList` returns `k` and
writes exactly the `k * W` packed bytes (`W` the sum of the widths): offsets from
`k * W` on are untouched, and the field of the `j`-th schema entry of the `i`-th
listed point fills the `dim.size` bytes at offset
`i * W + (widths of the entries before j)`; every point is read once per entry in
list order; `readDim` returns `dim.size` for every field it reads. -/
theorem readIndexList_packed_layout (pb : PointBuffer) (schema : Schema) (m : Machine)
    (indexList : List Nat) (h : ∀ d ∈ schema, supported d = true)
    (hr : ∀ p ∈ indexList, readable pb schema p = true) :
    (readIndexList pb schema m indexList).2 = .ok indexList.length ∧
    (readIndexList pb schema m indexList).1.mem =
      memcpy m.mem 0 (packedBytes pb schema indexList) ∧
    (packedBytes pb schema indexList).length = indexList.length * schemaWidth schema ∧
    (∀ a, indexList.length * schemaWidth schema ≤ a →
      (readIndexList pb schema m indexList).1.mem a = m.mem a) ∧
    (∀ i j p dim t, indexList[i]? = some p → schema[j]? = some dim → t < dim.size →
      (readIndexList pb schema m indexList).1.mem
          (i * schemaWidth schema + schemaWidth (schema.take j) + t) =
        (fieldBytes pb dim p).getD t 0) ∧
    (readIndexList pb schema m indexList).1.log = m.log ++ visits schema.length indexList ∧
    (∀ dim ∈ schema, ∀ (m1 : Machine) (pos p : Nat),
      (pb.getFieldAs (ctypeOf dim) dim.id p).isSome = true →
      ∃ m2, readDim pb m1 pos dim p = .ok (m2, dim.size)) ∧
    (∀ (dim : DimensionRequest) (m1 m2 : Machine) (pos p n : Nat),
      readDim pb m1 pos dim p = .ok (m2, n) → n = dim.size) := by
  have hrun : readIndexList pb schema m indexList =
      ({ mem := memcpy m.mem 0 (packedBytes pb schema indexList),
         log := m.log ++ visits schema.length indexList }, .ok indexList.length) := by
    unfold readIndexList
    rw [readPoints_ok pb schema h indexList hr]
  rw [hrun]
  refine ⟨rfl, rfl, packedBytes_length pb schema indexList, ?_, ?_, rfl, ?_, ?_⟩
  · intro a ha
    exact memcpy_outside _ _ _ _ (Or.inr (by rw [packedBytes_length]; omega))
  · intro i j p dim t hi hj ht
    obtain ⟨hlt, hfield⟩ := pointBytes_getD pb p schema j dim t hj ht
    have hil := getElem?_lt_length indexList i p hi
    have hin : i * schemaWidth schema + schemaWidth (schema.take j) + t <
        (packedBytes pb schema indexList).length := by
      rw [packedBytes_length]
      calc i * schemaWidth schema + schemaWidth (schema.take j) + t
          < i * schemaWidth schema + schemaWidth schema := by omega
        _ = (i + 1) * schemaWidth schema := by rw [Nat.add_mul, Nat.one_mul]
        _ ≤ indexList.length * schemaWidth schema := Nat.mul_le_mul_right _ hil
    have hmem := memcpy_inside m.mem 0 (packedBytes pb schema indexList) _ hin
    rw [Nat.zero_add] at hmem
    simp only
    rw [hmem, Nat.add_assoc, packedBytes_getD pb schema indexList i p _ hi hlt, hfield]
  · intro dim hd m1 pos p hp
    exact ⟨_, readDim_supported pb m1 pos dim p (h dim hd) hp⟩
  · intro dim m1 m2 pos p n hn
    exact readDim_returns_size pb m1 m2 pos dim p n hn

/-- Witness for C6: two points of the sample buffer under the sample schema; the
2-byte field of the second listed point sits at offset `1 * 10 + 8`. -/
theorem readIndexList_packed_layout_witness :
    (readIndexList pbDemo schemaDemo m0 [7, 3]).2 = .ok 2 ∧
    (readIndexList pbDemo schemaDemo m0 [7, 3]).1.mem (1 * 10 + 8 + 0) = 2003 % 256 ∧
    (readIndexList pbDemo schemaDemo m0 [7, 3]).1.mem (2 * 10) = 0 :=
  have h := readIndexList_packed_layout pbDemo schemaDemo m0 [7, 3] (by decide) (by decide)
  ⟨h.1, h.2.2.2.2.1 1 1 3 ⟨2, "unsigned", 2⟩ 0 (by decide) (by decide) (by decide),
    h.2.2.2.1 20 (by decide)⟩

/-- Claim C3, as stated, fails: with the unsupported entry (integer, width 3)
in the schema, `readIndexList` on the empty index list succeeds and returns 0. -/
theorem readIndexList_empty_list_succeeds :
    supported ⟨0, "integer", 3⟩ = false ∧
    (readIndexList pbDemo [⟨0, "integer", 3⟩] m0 []).2 = .ok 0 := by
  decide

/-- Claim C3, amended: when the schema has an unsupported entry, the sequential
read throws for every start and count (as soon as it may run one iteration), and
`readIndexList` throws for every non-empty index list; on the empty index list
it returns 0 and changes nothing. -/
theorem unsupported_schema_fails (schema : Schema) (s : PdalSession) (fuel : Nat) (m : Machine)
    (start count : Nat) (pb : PointBuffer) (m1 : Machine) (i : Nat) (rest : List Nat)
    (h : ∃ d ∈ schema, supported d = false) (hN : s.getNumPoints < 2 ^ 64) :
    (∃ e, (s.read (fuel + 1) m schema start count).2.2 = .throw e) ∧
    (readIndexList pb schema m1 (i :: rest)).2 = .throw "Failed to read points from PDAL" ∧
    readIndexList pb schema m1 [] = (m1, .ok 0) := by
  refine ⟨?_, ?_, rfl⟩
  · by_cases hs : start < s.getNumPoints
    · have hk := pointsToRead_pos s.getNumPoints start count hs
      have hi : start % 2 ^ 32 < start + pointsToRead s.getNumPoints start count :=
        Nat.lt_of_le_of_lt (Nat.mod_le _ _) (by omega)
      obtain ⟨m2, e, he⟩ := readLoop_fails s.pointBuffer schema h _ fuel m 0 _ hi
      rw [read_unfold s (fuel + 1) m _ start count hN hs, he]
      exact ⟨_, rfl⟩
    · refine ⟨"Invalid starting offset in 'read'", ?_⟩
      unfold PdalSession.read
      rw [if_pos (by omega)]
  · obtain ⟨m2, e, he⟩ := readPoints_fails pb schema h i rest m1 0
    unfold readIndexList
    rw [he]

/-- Witness for C3 (amended): the schema with the width-3 integer, read
sequentially from point 200 and through the index list `[5, 6]`. -/
theorem unsupported_schema_fails_witness :
    (∃ e, ((sessionOf pbDemo).read (0 + 1) m0 schemaBad 200 5).2.2 = .throw e) ∧
    (readIndexList pbDemo schemaBad m0 (5 :: [6])).2 =
      .throw "Failed to read points from PDAL" ∧
    readIndexList pbDemo schemaBad m0 [] = (m0, .ok 0) :=
  unsupported_schema_fails schemaBad (sessionOf pbDemo) 0 m0 200 5 pbDemo m0 5 [6]
    ⟨⟨2, "unsigned", 3⟩, by decide, by decide⟩ (by decide)

/-- Claim C4, as stated, fails: with the unsupported entry in second position,
the failing `readIndexList` call has already stored the first field of the first
point, so byte 0 of the output buffer differs from what it was. -/
theorem failed_readIndexList_changes_buffer :
    (readIndexList pbDemo schemaBad m0 [5]).2 = .throw "Failed to read points from PDAL" ∧
    (readIndexList pbDemo schemaBad m0 [5]).1.mem 0 = 237 ∧ m0.mem 0 = 0 := by
  decide

/-- Claim C4, amended: let the schema be `pre ++ bad :: post` with `bad` its first
unsupported entry and let the fields of `pre` be readable for the first point
serialized.  Then a sequential read from `start` (below `N` and below 2^32) and a
`readIndexList` call on `i :: rest` both throw, having stored exactly the packed
fields of `pre` for the first point (`start`, respectively `i`) from offset 0:
every byte at an offset at or beyond the summed widths of `pre` is what it was.
When the unsupported entry comes first, no call of either kind changes the
buffer, whatever the number of points requested. -/
theorem unsupported_schema_writes_only_leading_fields (pre post : Schema)
    (bad : DimensionRequest) (s : PdalSession) (fuel : Nat) (m : Machine) (start count : Nat)
    (i : Nat) (rest : List Nat)
    (hpre : ∀ d ∈ pre, supported d = true) (hbad : supported bad = false)
    (hN : s.getNumPoints < 2 ^ 64) (hs : start < s.getNumPoints) (hs32 : start < 2 ^ 32)
    (hr1 : readable s.pointBuffer pre start = true)
    (hr2 : readable s.pointBuffer pre i = true) :
    s.read (fuel + 1) m (pre ++ bad :: post) start count =
      (s, { mem := memcpy m.mem 0 (pointBytes s.pointBuffer pre start),
            log := m.log ++ List.replicate pre.length start },
        .throw "Failed to read points from PDAL") ∧
    readIndexList s.pointBuffer (pre ++ bad :: post) m (i :: rest) =
      ({ mem := memcpy m.mem 0 (pointBytes s.pointBuffer pre i),
         log := m.log ++ List.replicate pre.length i },
        .throw "Failed to read points from PDAL") ∧
    (pointBytes s.pointBuffer pre start).length = schemaWidth pre ∧
    (pointBytes s.pointBuffer pre i).length = schemaWidth pre ∧
    (∀ a, schemaWidth pre ≤ a →
      (s.read (fuel + 1) m (pre ++ bad :: post) start count).2.1.mem a = m.mem a ∧
      (readIndexList s.pointBuffer (pre ++ bad :: post) m (i :: rest)).1.mem a = m.mem a) ∧
    (∀ (fuel1 start1 count1 : Nat),
      (s.read fuel1 m (bad :: post) start1 count1).2.1.mem = m.mem) ∧
    (∀ l : List Nat, (readIndexList s.pointBuffer (bad :: post) m l).1.mem = m.mem) := by
  have hk := pointsToRead_pos s.getNumPoints start count hs
  have hmod : start % 2 ^ 32 = start := Nat.mod_eq_of_lt hs32
  have hseq : s.read (fuel + 1) m (pre ++ bad :: post) start count =
      (s, { mem := memcpy m.mem 0 (pointBytes s.pointBuffer pre start),
            log := m.log ++ List.replicate pre.length start },
        .throw "Failed to read points from PDAL") := by
    obtain ⟨e, he⟩ := readLoop_unsupported s.pointBuffer pre post bad hpre hbad
      (start + pointsToRead s.getNumPoints start count) fuel m 0 start (by omega) hr1
    rw [read_unfold s (fuel + 1) m _ start count hN hs, hmod, he]
    rfl
  have hlist : readIndexList s.pointBuffer (pre ++ bad :: post) m (i :: rest) =
      ({ mem := memcpy m.mem 0 (pointBytes s.pointBuffer pre i),
         log := m.log ++ List.replicate pre.length i },
        .throw "Failed to read points from PDAL") := by
    obtain ⟨e, he⟩ := readPoints_unsupported s.pointBuffer pre post bad hpre hbad i rest hr2 m 0
    unfold readIndexList
    rw [he]
  have hnil : ∀ d ∈ ([] : Schema), supported d = true := by simp
  refine ⟨hseq, hlist, pointBytes_length _ _ _, pointBytes_length _ _ _, ?_, ?_, ?_⟩
  · intro a ha
    rw [hseq, hlist]
    exact ⟨memcpy_outside _ _ _ _ (Or.inr (by rw [pointBytes_length]; omega)),
      memcpy_outside _ _ _ _ (Or.inr (by rw [pointBytes_length]; omega))⟩
  · intro fuel1 start1 count1
    unfold PdalSession.read
    by_cases hs1 : start1 ≥ s.getNumPoints
    · rw [if_pos hs1]
    · rw [if_neg hs1]
      simp only
      cases fuel1 with
      | zero => rfl
      | succ f =>
        generalize ((start1 + if count1 > 0 then
            min count1 ((s.getNumPoints + 2 ^ 64 - start1) % 2 ^ 64)
          else (s.getNumPoints + 2 ^ 64 - start1) % 2 ^ 64) % 2 ^ 64) = bound
        by_cases hi : start1 % 2 ^ 32 < bound
        · obtain ⟨e, he⟩ := readLoop_unsupported s.pointBuffer [] post bad hnil hbad bound f m 0
            (start1 % 2 ^ 32) hi rfl
          rw [List.nil_append] at he
          rw [he]
          simp [pointBytes, memcpy_nil]
        · rw [readLoop, if_neg hi]
  · intro l
    cases l with
    | nil => rfl
    | cons j tl =>
      obtain ⟨e, he⟩ := readPoints_unsupported s.pointBuffer [] post bad hnil hbad j tl rfl m 0
      rw [List.nil_append] at he
      unfold readIndexList
      rw [he]
      simp [pointBytes, memcpy_nil]

/-- Witness for C4 (amended): the width-3 integer after one supported 1-byte
entry, read from point 200 and through the index list `[5, 6]`. -/
theorem unsupported_schema_writes_only_leading_fields_witness :
    ((sessionOf pbDemo).read (8 + 1) m0 ([⟨1, "unsigned", 1⟩] ++ ⟨2, "unsigned", 3⟩ :: [])
        200 5).2.1.mem 0 = 1200 % 256 ∧
    (readIndexList (sessionOf pbDemo).pointBuffer
        ([⟨1, "unsigned", 1⟩] ++ ⟨2, "unsigned", 3⟩ :: []) m0 (5 :: [6])).1.mem 0 = 1005 % 256 ∧
    ((sessionOf pbDemo).read (8 + 1) m0 ([⟨1, "unsigned", 1⟩] ++ ⟨2, "unsigned", 3⟩ :: [])
        200 5).2.1.mem 1 = m0.mem 1 ∧
    ((sessionOf pbDemo).read 9 m0 (⟨2, "unsigned", 3⟩ :: []) 200 5).2.1.mem = m0.mem :=
  have h := unsupported_schema_writes_only_leading_fields [⟨1, "unsigned", 1⟩] []
    ⟨2, "unsigned", 3⟩ (sessionOf pbDemo) 8 m0 200 5 5 [6] (by decide) (by decide) (by decide)
    (by decide) (by decide) (by decide) (by decide)
  ⟨by rw [h.1]; decide, by rw [h.2.1]; decide, (h.2.2.2.2.1 1 (by decide)).1,
    h.2.2.2.2.2.1 9 200 5⟩

/-! ## Claims on the sequential read -/

/-- Claim C5, as stated, fails: on the buffer of 1000 points whose reads of point 3
throw, the sequential read with start = 3 (below N) under the supported sample
schema fails. -/
theorem read_fails_below_N_on_failing_field_read :
    (∀ d ∈ schemaDemo, supported d = true) ∧ 3 < (sessionOf pbPartial).getNumPoints ∧
    ((sessionOf pbPartial).read 9 m0 schemaDemo 3 1).2.2 =
      .throw "Failed to read points from PDAL" := by
  decide

/-- Claim C5, amended: for a schema whose entries are all supported and a point
buffer whose field reads return at every index below `N`, the sequential read
throws if and only if `start >= N` (so always on an empty buffer); in that case
the call raises the range error with the machine state (output bytes and record
of reads) and the session exactly as they were.  With `start < N` and
`start + k` below 2^32 the call returns `k = pointsToRead`, having serialized
the points `start .. start + k - 1`.  The session is never changed. -/
theorem read_throws_iff_start_out_of_range (s : PdalSession) (m : Machine) (schema : Schema)
    (hN : s.getNumPoints < 2 ^ 64) (h : ∀ d ∈ schema, supported d = true)
    (hr : ∀ i, i < s.getNumPoints → readable s.pointBuffer schema i = true) :
    (∀ start count fuel,
      (∃ e, (s.read fuel m schema start count).2.2 = .throw e) ↔ start ≥ s.getNumPoints) ∧
    (∀ start count fuel, start ≥ s.getNumPoints →
      s.read fuel m schema start count = (s, m, .throw "Invalid starting offset in 'read'")) ∧
    (s.getNumPoints = 0 → ∀ start count fuel,
      ∃ e, (s.read fuel m schema start count).2.2 = .throw e) ∧
    (∀ start count fuel, start < s.getNumPoints →
      start + pointsToRead s.getNumPoints start count < 2 ^ 32 →
      pointsToRead s.getNumPoints start count < fuel →
      s.read fuel m schema start count =
        (s, { mem := memcpy m.mem 0 (packedBytes s.pointBuffer schema
                  (List.range' start (pointsToRead s.getNumPoints start count))),
              log := m.log ++ visits schema.length
                  (List.range' start (pointsToRead s.getNumPoints start count)) },
            .ok (pointsToRead s.getNumPoints start count))) ∧
    (∀ start count fuel, (s.read fuel m schema start count).1 = s) := by
  have hout : ∀ start count fuel, start ≥ s.getNumPoints →
      s.read fuel m schema start count =
        (s, m, .throw "Invalid starting offset in 'read'") := by
    intro start count fuel hs
    unfold PdalSession.read
    rw [if_pos hs]
  have hin : ∀ start count fuel, start < s.getNumPoints →
      ∀ e, (s.read fuel m schema start count).2.2 ≠ .throw e := by
    intro start count fuel hs e
    have hk := pointsToRead_pos s.getNumPoints start count hs
    have hnt := readLoop_no_throw s.pointBuffer schema
      (start + pointsToRead s.getNumPoints start count) h (fun i hi => hr i (by omega))
      fuel m 0 (start % 2 ^ 32)
    rw [read_unfold s fuel m schema start count hN hs]
    simp only
    rcases hrl : (readLoop s.pointBuffer schema
        (start + pointsToRead s.getNumPoints start count) fuel m 0 (start % 2 ^ 32)).2 with
      v | e1 | _
    · simp [seqOutcome]
    · rw [hrl] at hnt
      exact absurd rfl (hnt e1)
    · simp [seqOutcome]
  refine ⟨?_, hout, ?_, ?_, ?_⟩
  · intro start count fuel
    constructor
    · rintro ⟨e, he⟩
      by_contra hs
      exact hin start count fuel (by omega) e he
    · intro hs
      rw [hout start count fuel hs]
      exact ⟨_, rfl⟩
  · intro h0 start count fuel
    rw [hout start count fuel (by omega)]
    exact ⟨_, rfl⟩
  · intro start count fuel hs hb hf
    exact read_sequential_in_order s m schema start count fuel hN hs h hr hb hf
  · intro start count fuel
    by_cases hs : start ≥ s.getNumPoints
    · rw [hout start count fuel hs]
    · rw [read_unfold s fuel m schema start count hN (by omega)]

/-- Witness for C5 (amended): the sample buffer of 1000 points; start = 1000 is
refused, start = 200 with count = 2000 returns 800. -/
theorem read_throws_iff_start_out_of_range_witness :
    (sessionOf pbDemo).read 5 m0 schemaDemo 1000 3 =
      (sessionOf pbDemo, m0, .throw "Invalid starting offset in 'read'") ∧
    ((sessionOf pbDemo).read 801 m0 schemaDemo 200 2000).2.2 = .ok 800 ∧
    ((sessionOf pbDemo).read 801 m0 schemaDemo 200 0).2.2 = .ok 800 ∧
    ((sessionOf pbDemo).read 801 m0 schemaDemo 200 5).2.2 = .ok 5 ∧
    ((∃ e, ((sessionOf pbDemo).read 801 m0 schemaDemo 200 5).2.2 = .throw e) ↔
      200 ≥ (sessionOf pbDemo).getNumPoints) :=
  have h := read_throws_iff_start_out_of_range (sessionOf pbDemo) m0 schemaDemo (by decide)
    (by decide) (fun _ _ => rfl)
  ⟨h.2.1 1000 3 5 (by decide),
    by rw [h.2.2.2.1 200 2000 801 (by decide) (by decide) (by decide)]; rfl,
    by rw [h.2.2.2.1 200 0 801 (by decide) (by decide) (by decide)]; rfl,
    by rw [h.2.2.2.1 200 5 801 (by decide) (by decide) (by decide)]; rfl,
    h.1 200 5 801⟩

/-- Claim C1, failing input: on a buffer of 2^32 points the sequential read with
start = 0 and count = 0 under a supported schema is to return 2^32, but the
32-bit counter never reaches the bound 2^32: whatever the iteration budget, the
loop is still running. -/
theorem read_all_of_2_32_points_never_returns :
    pointsToRead (sessionOf pbHuge).getNumPoints 0 0 = 2 ^ 32 ∧
    ∀ fuel, ((sessionOf pbHuge).read fuel m0 [⟨0, "floating", 8⟩] 0 0).2.2 = .outOfFuel :=
  ⟨by decide, fun fuel =>
    read_spins (sessionOf pbHuge) m0 [⟨0, "floating", 8⟩] 0 0 (by decide) (by decide)
      (by decide) (fun _ _ => rfl) (by decide) fuel⟩

/-- Claim C8, failing input: on a buffer of 2^32 + 1 points the sequential read
with start = 2^32 and count = 1 is to serialize point 2^32 once and stop; the
32-bit counter starts at 0 instead, so the points read are 0, 1, ... and the loop
never ends. -/
theorem read_from_2_32_starts_at_point_zero :
    pointsToRead (sessionOf pbHuge1).getNumPoints (2 ^ 32) 1 = 1 ∧
    ((sessionOf pbHuge1).read 1 m0 [⟨0, "unsigned", 8⟩] (2 ^ 32) 1).2.1.log = [0] ∧
    ((sessionOf pbHuge1).read 3 m0 [⟨0, "unsigned", 8⟩] (2 ^ 32) 1).2.1.log = [0, 1, 2] ∧
    ∀ fuel, ((sessionOf pbHuge1).read fuel m0 [⟨0, "unsigned", 8⟩] (2 ^ 32) 1).2.2 =
      .outOfFuel :=
  ⟨by decide, by decide, by decide, fun fuel =>
    read_spins (sessionOf pbHuge1) m0 [⟨0, "unsigned", 8⟩] (2 ^ 32) 1 (by decide) (by decide)
      (by decide) (fun _ _ => rfl) (by decide) fuel⟩

/-! ## Claims on the transmitter -/

/-- Claim C2: for `offset <= size`, `transmit(offset, bytes)` hands the
connection the range that starts at `offset` and spans `min(bytes, size - offset)`
bytes when `bytes > 0` and `size - offset` bytes when `bytes = 0`; with
`size = 1000`, `transmit(200, 0)` and `transmit(200, 2000)` both send 800 bytes. -/
theorem transmit_range (t : BufferTransmitter) (offset bytes : Nat) (hsz : t.size < 2 ^ 64)
    (ho : offset ≤ t.size) :
    (t.transmit offset bytes).data = offset ∧
    (t.transmit offset bytes).size =
      (if bytes > 0 then min bytes (t.size - offset) else t.size - offset) ∧
    ((⟨1000⟩ : BufferTransmitter).transmit 200 0).size = 800 ∧
    ((⟨1000⟩ : BufferTransmitter).transmit 200 2000).size = 800 := by
  refine ⟨rfl, ?_, by decide, by decide⟩
  unfold BufferTransmitter.transmit
  simp only [size_sub t.size offset hsz ho]
  by_cases hb : bytes = 0
  · simp [hb]
  · have : bytes > 0 := by omega
    simp [hb, this]

/-- Witness for C2: `size = 1000`, `transmit(200, 2000)`. -/
theorem transmit_range_witness :
    ((⟨1000⟩ : BufferTransmitter).transmit 200 2000).data = 200 ∧
    ((⟨1000⟩ : BufferTransmitter).transmit 200 2000).size =
      (if 2000 > 0 then min 2000 ((⟨1000⟩ : BufferTransmitter).size - 200)
        else (⟨1000⟩ : BufferTransmitter).size - 200) ∧
    ((⟨1000⟩ : BufferTransmitter).transmit 200 0).size = 800 ∧
    ((⟨1000⟩ : BufferTransmitter).transmit 200 2000).size = 800 :=
  transmit_range ⟨1000⟩ 200 2000 (by decide) (by decide)

/-- Claim C10, failing input: with `size = 1000` and `offset = 1001` the `size_t`
difference `size - offset` wraps to 2^64 - 1, so `transmit(1001, 0)` hands over
2^64 - 1 bytes and `transmit(1001, 5)` hands over 5 bytes, both starting past the
end of the held buffer. -/
theorem transmit_offset_past_size_leaves_buffer :
    ((⟨1000⟩ : BufferTransmitter).transmit 1001 0) = ⟨1001, 2 ^ 64 - 1⟩ ∧
    ((⟨1000⟩ : BufferTransmitter).transmit 1001 5) = ⟨1001, 5⟩ ∧
    ¬ (((⟨1000⟩ : BufferTransmitter).transmit 1001 0).data +
        ((⟨1000⟩ : BufferTransmitter).transmit 1001 0).size ≤ 1000) ∧
    ¬ (((⟨1000⟩ : BufferTransmitter).transmit 1001 5).data +
        ((⟨1000⟩ : BufferTransmitter).transmit 1001 5).size ≤ 1000) := by
  decide

/-! ## The connect loop -/

theorem connectLoop_all_fail (connect : Nat → Bool) (n : Nat) :
    ∀ (r fuel : Nat), r + n = 500 → n < fuel →
      (∀ j, r ≤ j → j ≤ 500 → connect j = false) →
      connectLoop connect fuel ⟨r, r, 100 * r⟩ = (⟨501, 501, 50000⟩, .ok false) := by
  induction n with
  | zero =>
    intro r fuel hr hf hc
    obtain ⟨f, rfl⟩ : ∃ f, fuel = f + 1 := ⟨fuel - 1, by omega⟩
    have h500 : r = 500 := by omega
    subst h500
    simp [connectLoop, hc 500 (by omega) (by omega)]
  | succ n ih =>
    intro r fuel hr hf hc
    obtain ⟨f, rfl⟩ : ∃ f, fuel = f + 1 := ⟨fuel - 1, by omega⟩
    have hlt : r < 500 := by omega
    have hstep := ih (r + 1) f (by omega) (by omega) (fun j h1 h2 => hc j (by omega) h2)
    simp only [connectLoop, hc r (by omega) (by omega), Bool.false_eq_true, if_false, hlt,
      if_true]
    rw [← hstep, Nat.mul_add]

theorem connectLoop_first_success (connect : Nat → Bool) (d : Nat) :
    ∀ (r fuel : Nat), r + d ≤ 500 → d < fuel → connect (r + d) = true →
      (∀ j, r ≤ j → j < r + d → connect j = false) →
      connectLoop connect fuel ⟨r, r, 100 * r⟩ =
        (⟨r + d, r + d + 1, 100 * (r + d)⟩, .ok true) := by
  induction d with
  | zero =>
    intro r fuel _ hf hc _
    obtain ⟨f, rfl⟩ : ∃ f, fuel = f + 1 := ⟨fuel - 1, by omega⟩
    rw [Nat.add_zero] at hc
    simp [connectLoop, hc]
  | succ d ih =>
    intro r fuel hr hf hc hfail
    obtain ⟨f, rfl⟩ : ∃ f, fuel = f + 1 := ⟨fuel - 1, by omega⟩
    have hlt : r < 500 := by omega
    have hstep := ih (r + 1) f (by omega) (by omega)
      (by rw [Nat.add_assoc, Nat.add_comm 1 d]; exact hc)
      (fun j h1 h2 => hfail j (by omega) (by omega))
    simp only [connectLoop, hfail r (by omega) (by omega), Bool.false_eq_true, if_false, hlt,
      if_true]
    have e1 : r + 1 + d = r + (d + 1) := by omega
    rw [e1] at hstep
    rw [← hstep, Nat.mul_add]

/-- Claim C7, as stated, fails: when `resolver.resolve` throws, construction
fails at once, with no `asio::connect` call made and no delay, although every
connection attempt would have succeeded. -/
theorem construction_fails_without_connect_attempt :
    BufferTransmitter.new (.error "Host not found") (fun _ => true) 501 "nohost" 8080 1000 =
      (⟨0, 0, 0⟩, .throw "Host not found") := by
  decide

/-- Claim C7, amended: when the name resolution throws, construction fails at
once with no connect call and no sleep.  Once the name has resolved, with the
outcome of the `k`-th `asio::connect` call given by `connect k` (call 0 is the
initial attempt, calls 1..500 the retries, each preceded by one 100 ms sleep),
construction throws if and only if calls 0..500 all fail, and then 501 calls and
500 sleeps (50000 ms) have happened; if call `k <= 500` is the first to succeed,
construction succeeds after exactly `k + 1` calls and `k` sleeps.  The loop
always ends within 501 iterations. -/
theorem connect_retry_budget (connect : Nat → Bool) (fuel : Nat) (host : String) (port : Int)
    (size : Nat) (hf : 501 ≤ fuel) :
    (∀ e, BufferTransmitter.new (.error e) connect fuel host port size =
      (⟨0, 0, 0⟩, .throw e)) ∧
    ((∃ e, (BufferTransmitter.new (.ok ()) connect fuel host port size).2 = .throw e) ↔
      ∀ k, k ≤ 500 → connect k = false) ∧
    ((∀ k, k ≤ 500 → connect k = false) →
      BufferTransmitter.new (.ok ()) connect fuel host port size =
        (⟨501, 501, 100 * 500⟩,
          .throw ("Could not connect to " ++ host ++ ":" ++ toString port))) ∧
    (∀ k, k ≤ 500 → connect k = true → (∀ j, j < k → connect j = false) →
      BufferTransmitter.new (.ok ()) connect fuel host port size =
        (⟨k, k + 1, 100 * k⟩, .ok ⟨size⟩)) ∧
    (BufferTransmitter.new (.ok ()) connect fuel host port size).2 ≠ .outOfFuel := by
  have hfail : (∀ k, k ≤ 500 → connect k = false) →
      BufferTransmitter.new (.ok ()) connect fuel host port size =
        (⟨501, 501, 100 * 500⟩,
          .throw ("Could not connect to " ++ host ++ ":" ++ toString port)) := by
    intro hc
    have := connectLoop_all_fail connect 500 0 fuel (by omega) (by omega)
      (fun j _ h2 => hc j h2)
    unfold BufferTransmitter.new
    simp only
    rw [show (ConnectState.mk 0 0 0) = ⟨0, 0, 100 * 0⟩ from rfl, this]
  have hok : ∀ k, k ≤ 500 → connect k = true → (∀ j, j < k → connect j = false) →
      BufferTransmitter.new (.ok ()) connect fuel host port size =
        (⟨k, k + 1, 100 * k⟩, .ok ⟨size⟩) := by
    intro k hk hc hbefore
    have := connectLoop_first_success connect k 0 fuel (by omega) (by omega)
      (by rw [Nat.zero_add]; exact hc) (fun j _ h2 => hbefore j (by omega))
    unfold BufferTransmitter.new
    simp only
    rw [show (ConnectState.mk 0 0 0) = ⟨0, 0, 100 * 0⟩ from rfl, this]
    simp
  have hfirst : ¬ (∀ k, k ≤ 500 → connect k = false) →
      ∃ k, k ≤ 500 ∧ connect k = true ∧ ∀ j, j < k → connect j = false := by
    intro hc
    have hex : ∃ k, k ≤ 500 ∧ connect k = true := by
      by_contra hne
      apply hc
      intro k hk
      cases hck : connect k with
      | false => rfl
      | true => exact absurd ⟨k, hk, hck⟩ hne
    classical
    obtain ⟨hk, hck⟩ := Nat.find_spec hex
    refine ⟨Nat.find hex, hk, hck, ?_⟩
    intro j hj
    cases hcj : connect j with
    | false => rfl
    | true => exact absurd ⟨by omega, hcj⟩ (Nat.find_min hex hj)
  refine ⟨fun e => rfl, ⟨?_, ?_⟩, hfail, hok, ?_⟩
  · rintro ⟨e, he⟩
    by_contra hc
    obtain ⟨k, hk, hck, hbefore⟩ := hfirst hc
    rw [hok k hk hck hbefore] at he
    simp at he
  · intro hc
    rw [hfail hc]
    exact ⟨_, rfl⟩
  · by_cases hc : ∀ k, k ≤ 500 → connect k = false
    · rw [hfail hc]
      simp
    · obtain ⟨k, hk, hck, hbefore⟩ := hfirst hc
      rw [hok k hk hck hbefore]
      simp

/-- Witness for C7 (amended): a peer that accepts the fourth call (call 3), with
a budget of 501 loop iterations: 4 calls, 3 sleeps, 300 ms. -/
theorem connect_retry_budget_witness :
    BufferTransmitter.new (.ok ()) (fun k => decide (3 ≤ k)) 501 "localhost" 8080 1000 =
      (⟨3, 3 + 1, 100 * 3⟩, .ok ⟨1000⟩) ∧
    ¬ (∃ e, (BufferTransmitter.new (.ok ()) (fun k => decide (3 ≤ k)) 501 "localhost" 8080
      1000).2 = .throw e) ∧
    BufferTransmitter.new (.error "Host not found") (fun k => decide (3 ≤ k)) 501 "localhost"
      8080 1000 = (⟨0, 0, 0⟩, .throw "Host not found") :=
  have h := connect_retry_budget (fun k => decide (3 ≤ k)) 501 "localhost" 8080 1000
    (by decide)
  ⟨h.2.2.2.1 3 (by decide) (by decide) (fun j hj => by simp; omega),
    fun hex => absurd (h.2.1.mp hex 3 (by decide)) (by decide),
    h.1 "Host not found"⟩

/-! ## Claims on the range read -/

/-- A range read that returns normally leaves the range index absent. -/
theorem readRange_ok_discards_index {D : Type} (s : PdalSession) (env : QuadIndexEnv D)
    (m : Machine) (schema : Schema) (xMin yMin xMax yMax : D) (depthBegin depthEnd n : Nat)
    (h : (s.readRange env m schema xMin yMin xMax yMax depthBegin depthEnd).2.2 = .ok n) :
    (s.readRange env m schema xMin yMin xMax yMax depthBegin depthEnd).1.quadIndex = none := by
  unfold PdalSession.readRange at h ⊢
  rcases hq : s.quadIndex with _ | built
  · simp only [hq] at h ⊢
    by_cases hb : env.build = true
    · simp only [hb, if_true] at h ⊢
      rcases hr : readIndexList s.pointBuffer schema m
        (env.getPoints true xMin yMin xMax yMax depthBegin depthEnd) with ⟨m1, v | e | _⟩
      · simp [hr]
      · simp [hr] at h
      · simp [hr] at h
    · simp [hb] at h
  · simp only [hq] at h ⊢
    rcases hr : readIndexList s.pointBuffer schema m
      (env.getPoints built xMin yMin xMax yMax depthBegin depthEnd) with ⟨m1, v | e | _⟩
    · simp [hr]
    · simp [hr] at h
    · simp [hr] at h

/-- Claim C9, failing inputs: (1) when `build()` throws, the range read throws
and leaves `m_quadIndex` pointing at the unbuilt index, so the next range read
does not construct it again and queries the unbuilt index (it returns 0 points
where the built index answers 2); (2) when serialization throws (schema with a
width-3 integer), `m_quadIndex.reset(0)` is skipped and the built index stays. -/
theorem readRange_failure_keeps_index :
    ((sessionOf pbDemo).readRange envBuildFails m0 schemaDemo 0 0 9 9 0 8).2.2 =
      .throw "Error creating quadtree index" ∧
    ((sessionOf pbDemo).readRange envBuildFails m0 schemaDemo 0 0 9 9 0 8).1.quadIndex =
      some false ∧
    ((((sessionOf pbDemo).readRange envBuildFails m0 schemaDemo 0 0 9 9 0 8).1).readRange
      envBuildOk m0 schemaDemo 0 0 9 9 0 8).2.2 = .ok 0 ∧
    ((sessionOf pbDemo).readRange envBuildOk m0 schemaDemo 0 0 9 9 0 8).2.2 = .ok 2 ∧
    ((sessionOf pbDemo).readRange envBuildOk m0 schemaBad 0 0 9 9 0 8).2.2 =
      .throw "Failed to read points from PDAL" ∧
    ((sessionOf pbDemo).readRange envBuildOk m0 schemaBad 0 0 9 9 0 8).1.quadIndex =
      some true := by
  decide

end Greyhound
